import Mathlib

/-!
Verification of the PolygraalX paper-trading store, dynamic market filter,
and the documented signal/position engine.

The paper-trading store (`paperStore` in the repository) keeps a list of
simulated orders and a profile with balances and aggregate statistics in
browser local storage.  Money amounts and prices are embedded as rationals;
the nondeterministic inputs of the original code (the random order id and
the wall-clock timestamp) are passed in explicitly as parameters.
-/

namespace PolyGraalX

/-- Side of a prediction-market order: YES or NO outcome token. -/
inductive Outcome where
  | YES
  | NO
deriving DecidableEq

/-- Order direction as stored by the paper store. -/
inductive OrderType where
  | BUY
  | SELL
deriving DecidableEq

/-- Lifecycle status of a paper order. -/
inductive OrderStatus where
  | OPEN
  | CLOSED
  | CANCELLED
deriving DecidableEq

/-- Embedding of the `PaperOrder` record of the store. -/
structure PaperOrder where
  id : String
  marketId : String
  marketTitle : String
  type : OrderType
  outcome : Outcome
  amount : ℚ
  entryPrice : ℚ
  shares : ℚ
  timestamp : ℚ
  status : OrderStatus
  exitPrice : Option ℚ
  pnl : Option ℚ
  roi : Option ℚ
deriving DecidableEq

/-- Embedding of the `PaperProfile` record of the store. -/
structure PaperProfile where
  username : String
  initialBalance : ℚ
  currentBalance : ℚ
  totalPnL : ℚ
  winRate : ℚ
  tradesCount : Nat
  active : Bool
  autoFollow : Bool
deriving DecidableEq

/-- Embedding of `DEFAULT_PROFILE`. -/
def DEFAULT_PROFILE : PaperProfile :=
  { username := "Ghost Trader"
    initialBalance := 1000
    currentBalance := 1000
    totalPnL := 0
    winRate := 0
    tradesCount := 0
    active := false
    autoFollow := false }

/-- Combined store state: the orders list and the profile, as persisted
under the two local-storage keys. -/
structure PaperState where
  orders : List PaperOrder
  profile : PaperProfile
deriving DecidableEq

/-- Argument of `addOrder`: a `PaperOrder` with `id`, `timestamp` and
`status` omitted (the `Omit` type of the source).  The optional
`exitPrice`, `pnl`, `roi` fields are never supplied by callers. -/
structure OrderRequest where
  marketId : String
  marketTitle : String
  type : OrderType
  outcome : Outcome
  amount : ℚ
  entryPrice : ℚ
  shares : ℚ
deriving DecidableEq

/-- Embedding of `paperStore.addOrder`.  The random id and `Date.now()`
are inputs.  Returns the created order (or `none` on rejection) together
with the updated state, mirroring the `return null` / `return newOrder`
paths of the source. -/
def addOrder (s : PaperState) (req : OrderRequest) (newId : String)
    (now : ℚ) : Option PaperOrder × PaperState :=
  if s.profile.currentBalance < req.amount then
    (none, s)
  else
    let newOrder : PaperOrder :=
      { id := newId
        marketId := req.marketId
        marketTitle := req.marketTitle
        type := req.type
        outcome := req.outcome
        amount := req.amount
        entryPrice := req.entryPrice
        shares := req.shares
        timestamp := now
        status := OrderStatus.OPEN
        exitPrice := none
        pnl := none
        roi := none }
    (some newOrder,
      { orders := newOrder :: s.orders
        profile :=
          { s.profile with
            currentBalance := s.profile.currentBalance - req.amount
            tradesCount := s.profile.tradesCount + 1 } })

/-- Closed version of an order, as written back by `closeOrder`:
status becomes CLOSED, the exit price is recorded and
`pnl = shares * exitPrice - amount`, `roi = pnl / amount * 100`. -/
def mkClosed (o : PaperOrder) (exitPrice : ℚ) : PaperOrder :=
  { o with
    status := OrderStatus.CLOSED
    exitPrice := some exitPrice
    pnl := some (o.shares * exitPrice - o.amount)
    roi := some ((o.shares * exitPrice - o.amount) / o.amount * 100) }

/-- Embedding of the `findIndex` / in-place update part of
`closeOrder`: locate the first order with the given id; if it is OPEN,
replace it by its closed version and report the original record,
otherwise leave the list untouched and report `none`. -/
def closeOrderList (l : List PaperOrder) (orderId : String) (exitPrice : ℚ) :
    List PaperOrder × Option PaperOrder :=
  match l with
  | [] => ([], none)
  | o :: rest =>
    if o.id = orderId then
      if o.status = OrderStatus.OPEN then
        (mkClosed o exitPrice :: rest, some o)
      else
        (o :: rest, none)
    else
      let r := closeOrderList rest orderId exitPrice
      (o :: r.1, r.2)

/-- Embedding of `paperStore.closeOrder`.  When no open order with the
given id exists the state is returned unchanged (the early `return`
paths); otherwise the order is closed, the balance is credited with
`shares * exitPrice`, `totalPnL` accumulates the realized pnl, and the
win rate is recomputed over the updated orders list. -/
def closeOrder (s : PaperState) (orderId : String) (exitPrice : ℚ) :
    PaperState :=
  match closeOrderList s.orders orderId exitPrice with
  | (_, none) => s
  | (newOrders, some o) =>
    let returnAmount := o.shares * exitPrice
    let pnl := returnAmount - o.amount
    let wins := (newOrders.filter (fun x => 0 < x.pnl.getD 0)).length
    let closed :=
      (newOrders.filter (fun x => x.status = OrderStatus.CLOSED)).length
    { orders := newOrders
      profile :=
        { s.profile with
          currentBalance := s.profile.currentBalance + returnAmount
          totalPnL := s.profile.totalPnL + pnl
          winRate :=
            if 0 < closed then ((wins : ℚ) / (closed : ℚ)) * 100 else 0 } }

/-- Embedding of `paperStore.reset`: empty orders, fresh profile with the
given balance and paper mode switched on. -/
def resetState (balance : ℚ) : PaperState :=
  { orders := []
    profile :=
      { DEFAULT_PROFILE with
        initialBalance := balance
        currentBalance := balance
        active := true } }

/-- One store operation: an `addOrder` call (with its request, generated
id and timestamp) or a `closeOrder` call. -/
inductive Op where
  | add : OrderRequest → String → ℚ → Op
  | close : String → ℚ → Op
deriving DecidableEq

/-- Apply one operation to the store state. -/
def applyOp (s : PaperState) : Op → PaperState
  | Op.add req newId now => (addOrder s req newId now).2
  | Op.close orderId exitPrice => closeOrder s orderId exitPrice

/-- Apply a sequence of operations, earliest first. -/
def applyOps (s : PaperState) (ops : List Op) : PaperState :=
  ops.foldl applyOp s

/-- Number of OPEN orders in a list (the dashboard's `activeOrders`). -/
def openCount (l : List PaperOrder) : Nat :=
  (l.filter (fun o => o.status = OrderStatus.OPEN)).length

/-- Number of orders in a list for a given market id. -/
def countAsset (asset : String) (l : List PaperOrder) : Nat :=
  (l.filter (fun o => o.marketId = asset)).length

/-- Sum of the `amount` field over all orders. -/
def sumAmount (l : List PaperOrder) : ℚ :=
  (l.map (fun o => o.amount)).sum

/-- Sum of the `amount` field over OPEN orders. -/
def sumOpenAmount (l : List PaperOrder) : ℚ :=
  (l.map (fun o =>
    if o.status = OrderStatus.OPEN then o.amount else 0)).sum

/-- Sum of the `amount` field over CLOSED orders. -/
def sumClosedAmount (l : List PaperOrder) : ℚ :=
  (l.map (fun o =>
    if o.status = OrderStatus.CLOSED then o.amount else 0)).sum

/-- Sum of `shares * exitPrice` over CLOSED orders. -/
def sumClosedReturn (l : List PaperOrder) : ℚ :=
  (l.map (fun o =>
    if o.status = OrderStatus.CLOSED then o.shares * o.exitPrice.getD 0
    else 0)).sum

/-- Accounting invariant of the paper store, used to settle the balance
claims: the balance equation, the pnl decomposition, and the fact that
the store only ever creates OPEN or CLOSED orders. -/
def Inv (s : PaperState) : Prop :=
  s.profile.currentBalance =
      s.profile.initialBalance - sumAmount s.orders +
        sumClosedReturn s.orders ∧
  s.profile.totalPnL = sumClosedReturn s.orders - sumClosedAmount s.orders ∧
  ∀ o ∈ s.orders, o.status ≠ OrderStatus.CANCELLED

/-- Realized pnl as the specification words it: `(exitPrice − entryPrice)
× size × directionSign`, where the direction sign is `+1` for a YES/long
position and `−1` for a NO/short position.  This definition follows the
spec sentence and is compared against the pnl the store records. -/
def specRealizedPnl (side : Outcome) (entryPrice exitPrice size : ℚ) : ℚ :=
  (exitPrice - entryPrice) * size *
    (match side with | Outcome.YES => 1 | Outcome.NO => -1)

/-!
The signal-and-exit engine.  The Python modules implementing it
(`volatility.py`, `positions.py`, `trading.py`) are not part of the
submitted sources; only the specification describes them.  The
definitions below are therefore modelled from the spec.
-/

/-- Modelled from the spec: the engine configuration surface with its
recognized options and defaults (`entryThreshold` 2.5, `exitThreshold`
0.5, `minCloseBuffer` 120 s, `maxHoldDuration` 300 s, and the minimum
sample count below which window statistics are insufficient). -/
structure EngineConfig where
  entryThreshold : ℚ
  exitThreshold : ℚ
  minCloseBuffer : ℚ
  maxHoldDuration : ℚ
  minSamples : Nat
deriving DecidableEq

/-- Default engine configuration from the spec. -/
def defaultConfig : EngineConfig :=
  { entryThreshold := 5 / 2
    exitThreshold := 1 / 2
    minCloseBuffer := 120
    maxHoldDuration := 300
    minSamples := 2 }

/-- Modelled from the spec: the `(mean, stddev, count)` result of
`RollingWindow.stats()`. -/
structure WindowStats where
  mean : ℚ
  stddev : ℚ
  count : Nat
deriving DecidableEq

/-- Kind of a trading signal. -/
inductive SignalKind where
  | ENTER_YES
  | ENTER_NO
  | EXIT
  | NONE
deriving DecidableEq

/-- Whether a signal kind is an entry signal. -/
def isEnter : SignalKind → Bool
  | SignalKind.ENTER_YES => true
  | SignalKind.ENTER_NO => true
  | _ => false

/-- Z-score of a price against window statistics:
`z = (currentPrice - mean) / stddev`. -/
def zscore (price : ℚ) (ws : WindowStats) : ℚ :=
  (price - ws.mean) / ws.stddev

/-- Mean of a list of samples. -/
def meanQ (l : List ℚ) : ℚ :=
  l.sum / (l.length : ℚ)

/-- Sample variance of a list of samples (division by `n - 1`). -/
def sampleVar (l : List ℚ) : ℚ :=
  ((l.map (fun x => (x - meanQ l) ^ 2)).sum) / ((l.length : ℚ) - 1)

/-- Modelled from the spec: `RollingWindow.stats()`, which returns an
insufficient-data result (`none`) when the window holds fewer samples
than the configured minimum, and `(mean, stddev, count)` otherwise.  The
missing source computes the sample standard deviation; since its exact
numeric routine is absent, the square-root step is a parameter applied
to the sample variance. -/
def stats (sqrtFn : ℚ → ℚ) (cfg : EngineConfig) (samples : List ℚ) :
    Option WindowStats :=
  if samples.length < cfg.minSamples then none
  else
    some
      { mean := meanQ samples
        stddev := sqrtFn (sampleVar samples)
        count := samples.length }

/-- Modelled from the spec: `SignalEngine.evaluate(currentPrice,
windowStats, positionOpenForAsset)`.  Insufficient statistics yield
NONE; with no open position, `z >= entryThreshold` yields ENTER_NO and
`z <= -entryThreshold` yields ENTER_YES; with an open position (carrying
its entry z-score), `|z| <= exitThreshold` yields EXIT, as does an
over-correction where the sign of z flipped relative to the entry
z-score with magnitude beyond the entry threshold; otherwise NONE. -/
def evaluate (cfg : EngineConfig) (price : ℚ) (wstats : Option WindowStats)
    (openEntryZ : Option ℚ) : SignalKind :=
  match wstats with
  | none => SignalKind.NONE
  | some ws =>
    let z := zscore price ws
    match openEntryZ with
    | none =>
      if cfg.entryThreshold ≤ z then SignalKind.ENTER_NO
      else if z ≤ -cfg.entryThreshold then SignalKind.ENTER_YES
      else SignalKind.NONE
    | some entryZ =>
      if |z| ≤ cfg.exitThreshold then SignalKind.EXIT
      else if z * entryZ < 0 ∧ cfg.entryThreshold ≤ |z| then SignalKind.EXIT
      else SignalKind.NONE

/-- Status of an engine position. -/
inductive PosStatus where
  | OPEN
  | CLOSED
deriving DecidableEq

/-- Modelled from the spec: a tracked engine `Position`. -/
structure EnginePosition where
  id : String
  asset : String
  side : Outcome
  entryPrice : ℚ
  size : ℚ
  openedAt : ℚ
  marketExpiry : ℚ
  status : PosStatus
deriving DecidableEq

/-- Modelled from the spec: the forced-close pass the PositionTracker
runs every tick, independent of the SignalEngine.  Any OPEN position
whose `marketExpiry - now < minCloseBuffer` or whose
`now - openedAt > maxHoldDuration` is closed unconditionally. -/
def forceTick (cfg : EngineConfig) (now : ℚ) (ps : List EnginePosition) :
    List EnginePosition :=
  ps.map (fun p =>
    if p.status = PosStatus.OPEN ∧
        (p.marketExpiry - now < cfg.minCloseBuffer ∨
          cfg.maxHoldDuration < now - p.openedAt) then
      { p with status := PosStatus.CLOSED }
    else p)

/-!
The dynamic market filter (`filterSnipableMarkets`).  Two versions are
present in the repository: the `src/lib/dynamic-filter.ts` version
(thresholds 60 down to 30, last resort at 20 markets, fallback top 50,
defaults targetMin 40 / targetMax 200) and an older one (thresholds 50
down to 5, last resort at 10, fallback top 100, defaults 25 / 500).
Both instantiate the same loop.
-/

/-- Snipability score record; only the `score` field drives the filter. -/
structure SnipabilityScore where
  score : ℚ
deriving DecidableEq

/-- An input element of the filter: a market with its sniping score. -/
structure ScoredMarket where
  market : String
  sniping : SnipabilityScore
deriving DecidableEq

/-- Score projection used by the filter's comparator. -/
def scoreOf (m : ScoredMarket) : ℚ :=
  m.sniping.score

/-- Stable descending insertion, matching the comparator
`(a, b) => b.sniping.score - a.sniping.score` of a stable sort. -/
def insertDesc (m : ScoredMarket) : List ScoredMarket → List ScoredMarket
  | [] => [m]
  | x :: xs =>
    if scoreOf x < scoreOf m then m :: x :: xs else x :: insertDesc m xs

/-- The filter's initial sort: markets in descending score order. -/
def sortDesc (l : List ScoredMarket) : List ScoredMarket :=
  l.foldr insertDesc []

/-- Descending-order predicate on a markets list. -/
def SortedDesc (l : List ScoredMarket) : Prop :=
  l.Pairwise (fun a b => scoreOf b ≤ scoreOf a)

/-- Left list is an initial segment of the right list. -/
def IsPref (l₁ l₂ : List ScoredMarket) : Prop :=
  ∃ t, l₁ ++ t = l₂

/-- The threshold loop of `filterSnipableMarkets` over the sorted list:
for each threshold, take markets with score at or above it; return them
if within the target range, cap them at `targetMax` if too many,
otherwise keep lowering the threshold (the `continue` guard compares
against the last threshold `lastT`); at the last threshold return the
survivors if at least `lastResortMin` remain; after the loop fall back
to the top `fallbackTop` markets regardless of score. -/
def filterGo (sorted : List ScoredMarket) (targetMin targetMax : Nat)
    (lastResortMin fallbackTop : Nat) (lastT : ℚ) :
    List ℚ → List ScoredMarket
  | [] => sorted.take (min fallbackTop sorted.length)
  | t :: rest =>
    let filtered := sorted.filter (fun m => t ≤ scoreOf m)
    if targetMin ≤ filtered.length ∧ filtered.length ≤ targetMax then
      filtered
    else if targetMax < filtered.length then
      filtered.take targetMax
    else if filtered.length < targetMin ∧ lastT < t then
      filterGo sorted targetMin targetMax lastResortMin fallbackTop lastT rest
    else if lastResortMin ≤ filtered.length then
      filtered
    else
      filterGo sorted targetMin targetMax lastResortMin fallbackTop lastT rest

/-- Embedding of `filterSnipableMarkets` from
`src/lib/dynamic-filter.ts` (ULTRA QUALITY version): thresholds
`[60, 55, 50, 45, 40, 35, 30]`, last resort at 20 markets, absolute
fallback top 50.  Its declared defaults are `targetMin = 40`,
`targetMax = 200`. -/
def filterSnipableMarkets (markets : List ScoredMarket)
    (targetMin targetMax : Nat) : List ScoredMarket :=
  filterGo (sortDesc markets) targetMin targetMax 20 50 30
    [60, 55, 50, 45, 40, 35, 30]

/-- Embedding of the other `filterSnipableMarkets` version in the
repository: thresholds `[50, 45, 40, 35, 30, 25, 20, 15, 10, 5]`, last
resort at 10 markets, absolute fallback top 100.  Its declared defaults
are `targetMin = 25`, `targetMax = 500`. -/
def filterSnipableMarketsV1 (markets : List ScoredMarket)
    (targetMin targetMax : Nat) : List ScoredMarket :=
  filterGo (sortDesc markets) targetMin targetMax 10 100 5
    [50, 45, 40, 35, 30, 25, 20, 15, 10, 5]

/-!
Concrete fixtures used to evaluate the definitions on closed inputs.
-/

/-- Build an order request with BUY type. -/
def mkReq (mid title : String) (out : Outcome) (amt entry sh : ℚ) :
    OrderRequest :=
  { marketId := mid
    marketTitle := title
    type := OrderType.BUY
    outcome := out
    amount := amt
    entryPrice := entry
    shares := sh }

/-- Requests on six distinct markets, 10 units each. -/
def req1 : OrderRequest := mkReq "m1" "Market 1" Outcome.YES 10 1 10

def req2 : OrderRequest := mkReq "m2" "Market 2" Outcome.YES 10 1 10

def req3 : OrderRequest := mkReq "m3" "Market 3" Outcome.YES 10 1 10

def req4 : OrderRequest := mkReq "m4" "Market 4" Outcome.YES 10 1 10

def req5 : OrderRequest := mkReq "m5" "Market 5" Outcome.YES 10 1 10

def req6 : OrderRequest := mkReq "m6" "Market 6" Outcome.YES 10 1 10

/-- A state with five open positions on distinct markets, reached from a
fresh 1000-unit reset. -/
def s5 : PaperState :=
  applyOps (resetState 1000)
    [Op.add req1 "a1" 1, Op.add req2 "a2" 2, Op.add req3 "a3" 3,
      Op.add req4 "a4" 4, Op.add req5 "a5" 5]

/-- Repeated request on one asset, for the cooldown claim. -/
def reqB : OrderRequest := mkReq "btc" "BTC market" Outcome.YES 10 1 10

/-- A NO-side request: 10 shares at entry price 1 for 10 units. -/
def reqNO : OrderRequest := mkReq "mkt-no" "NO market" Outcome.NO 10 1 10

/-- A YES-side request: 10 shares at entry price 1 for 10 units. -/
def reqYES : OrderRequest :=
  mkReq "mkt-yes" "YES market" Outcome.YES 10 1 10

/-- State holding the single open NO order `reqNO` with id `n1`. -/
def sNO : PaperState := (addOrder (resetState 1000) reqNO "n1" 0).2

/-- State holding the single open YES order `reqYES` with id `y1`. -/
def sYES : PaperState := (addOrder (resetState 1000) reqYES "y1" 0).2

/-- The open order record created by adding `reqYES` with id `y1`. -/
def yOrder : PaperOrder :=
  { id := "y1"
    marketId := "mkt-yes"
    marketTitle := "YES market"
    type := OrderType.BUY
    outcome := Outcome.YES
    amount := 10
    entryPrice := 1
    shares := 10
    timestamp := 0
    status := OrderStatus.OPEN
    exitPrice := none
    pnl := none
    roi := none }

/-- State where the `y1` order has been opened and then closed at 2. -/
def sC : PaperState :=
  applyOps (resetState 1000) [Op.add reqYES "y1" 0, Op.close "y1" 2]

/-- An open position exactly at the forced-close boundary: at `now = 0`
its expiry is 120, so `marketExpiry - now` equals the default
`minCloseBuffer`. -/
def pBoundary : EnginePosition :=
  { id := "p0"
    asset := "mkt"
    side := Outcome.YES
    entryPrice := 1
    size := 10
    openedAt := 0
    marketExpiry := 120
    status := PosStatus.OPEN }

/-- An open position far from expiry and recently opened. -/
def pFresh : EnginePosition :=
  { id := "p1"
    asset := "mkt"
    side := Outcome.YES
    entryPrice := 1
    size := 10
    openedAt := 0
    marketExpiry := 1000
    status := PosStatus.OPEN }

end PolyGraalX

namespace PolyGraalX

/-!
Theorems.
-/

/-- C4.  An `addOrder` call with the available balance strictly below the
requested amount is rejected and leaves the whole state unchanged: it
returns `null` and performs no writes, so the orders list, the balance
and the trade counters keep their previous values. -/
theorem c4_insufficient_balance_noop (s : PaperState) (req : OrderRequest)
    (newId : String) (now : ℚ)
    (h : s.profile.currentBalance < req.amount) :
    addOrder s req newId now = (none, s) := by
  unfold addOrder
  rw [if_pos h]

/-- Witness for C4 at a concrete input: a 5-unit balance cannot cover a
10-unit request, and the state is returned untouched. -/
theorem c4_witness :
    (resetState 5).profile.currentBalance < req1.amount ∧
      addOrder (resetState 5) req1 "w" 3 = (none, resetState 5) :=
  ⟨by decide, c4_insufficient_balance_noop (resetState 5) req1 "w" 3
    (by decide)⟩

/-- C2, counterexample.  In the state `s5` with five open positions and
950 units of balance, an `addOrder` for a sixth distinct market is NOT
rejected: the store checks only the balance, so the order is created and
the open-position count becomes six. -/
theorem c2_counterexample :
    openCount s5.orders = 5 ∧
      ¬ s5.profile.currentBalance < req6.amount ∧
      ((addOrder s5 req6 "a6" 6).1).isSome = true ∧
      openCount (addOrder s5 req6 "a6" 6).2.orders = 6 := by
  norm_num [s5, applyOps, applyOp, addOrder, resetState, DEFAULT_PROFILE,
    openCount, mkReq, req1, req2, req3, req4, req5, req6, List.filter]

/-- C2, amended.  `paperStore.addOrder` enforces no cap on concurrent
open positions: whenever the available balance covers the requested
amount, the order is created — the orders list grows by one and the
open-position count increments — regardless of how many positions are
already open. -/
theorem c2_no_max_positions (s : PaperState) (req : OrderRequest)
    (newId : String) (now : ℚ)
    (h : ¬ s.profile.currentBalance < req.amount) :
    ((addOrder s req newId now).1).isSome = true ∧
      (addOrder s req newId now).2.orders.length = s.orders.length + 1 ∧
      openCount (addOrder s req newId now).2.orders =
        openCount s.orders + 1 := by
  unfold addOrder
  rw [if_neg h]
  refine ⟨rfl, rfl, ?_⟩
  simp [openCount, List.filter]

/-- Witness for C2's amended theorem at the concrete five-position
state: the balance check passes and a sixth position is opened. -/
theorem c2_witness :
    ¬ s5.profile.currentBalance < req6.amount ∧
      ((addOrder s5 req6 "b6" 7).1).isSome = true ∧
      (addOrder s5 req6 "b6" 7).2.orders.length = s5.orders.length + 1 ∧
      openCount (addOrder s5 req6 "b6" 7).2.orders =
        openCount s5.orders + 1 :=
  ⟨by norm_num [s5, applyOps, applyOp, addOrder, resetState, DEFAULT_PROFILE,
      mkReq, req1, req2, req3, req4, req5, req6],
    c2_no_max_positions s5 req6 "b6" 7
      (by norm_num [s5, applyOps, applyOp, addOrder, resetState,
        DEFAULT_PROFILE, mkReq, req1, req2, req3, req4, req5, req6])⟩

/-- C5, counterexample.  Starting from a fresh 1000-unit reset, two
`addOrder` calls on the same asset `btc` at timestamps 0 and 1 — one
second apart, far inside the documented 60-second cooldown — both
succeed, leaving two positions on that asset.  The store keeps no
per-asset `lastTradeAt` and applies no cooldown. -/
theorem c5_counterexample :
    ((addOrder (resetState 1000) reqB "x1" 0).1).isSome = true ∧
      ((addOrder (addOrder (resetState 1000) reqB "x1" 0).2 reqB "x2"
        1).1).isSome = true ∧
      countAsset "btc"
        (addOrder (addOrder (resetState 1000) reqB "x1" 0).2 reqB "x2"
          1).2.orders = 2 ∧
      (1 : ℚ) - 0 < 60 := by
  norm_num [addOrder, resetState, DEFAULT_PROFILE, mkReq, reqB, countAsset,
    List.filter]

/-- C5, amended.  `paperStore.addOrder` applies no per-asset cooldown:
two successive calls for the same market id succeed at ANY pair of
timestamps — in particular within 60 seconds of each other — as long as
the balance covers each amount, and both orders land on the asset. -/
theorem c5_no_cooldown (s : PaperState) (req : OrderRequest)
    (id1 id2 : String) (t1 t2 : ℚ)
    (h1 : ¬ s.profile.currentBalance < req.amount)
    (h2 : ¬ (addOrder s req id1 t1).2.profile.currentBalance < req.amount) :
    ((addOrder (addOrder s req id1 t1).2 req id2 t2).1).isSome = true ∧
      countAsset req.marketId
        (addOrder (addOrder s req id1 t1).2 req id2 t2).2.orders =
        countAsset req.marketId s.orders + 2 := by
  unfold addOrder at h2 ⊢
  rw [if_neg h1] at h2 ⊢
  rw [if_neg h2]
  refine ⟨rfl, ?_⟩
  simp [countAsset, List.filter]

/-- Witness for C5's amended theorem: the two concrete back-to-back
`btc` orders at timestamps 0 and 1. -/
theorem c5_witness :
    ¬ (resetState 1000).profile.currentBalance < reqB.amount ∧
      ¬ (addOrder (resetState 1000) reqB "x1"
          0).2.profile.currentBalance < reqB.amount ∧
      ((addOrder (addOrder (resetState 1000) reqB "x1" 0).2 reqB "x2"
        1).1).isSome = true ∧
      countAsset "btc"
        (addOrder (addOrder (resetState 1000) reqB "x1" 0).2 reqB "x2"
          1).2.orders = countAsset "btc" (resetState 1000).orders + 2 :=
  ⟨by norm_num [resetState, DEFAULT_PROFILE, mkReq, reqB],
    by norm_num [addOrder, resetState, DEFAULT_PROFILE, mkReq, reqB],
    c5_no_cooldown (resetState 1000) reqB "x1" "x2" 0 1
      (by norm_num [resetState, DEFAULT_PROFILE, mkReq, reqB])
      (by norm_num [addOrder, resetState, DEFAULT_PROFILE, mkReq, reqB])⟩

/-- The close operation never changes the length of the orders list. -/
theorem closeOrderList_length (l : List PaperOrder) (oid : String) (e : ℚ) :
    ((closeOrderList l oid e).1).length = l.length := by
  induction l with
  | nil => rfl
  | cons o rest ih =>
    by_cases hid : o.id = oid
    · by_cases hst : o.status = OrderStatus.OPEN
      · simp [closeOrderList, hid, hst]
      · simp [closeOrderList, hid, hst]
    · simp [closeOrderList, hid, ih]

/-- When no open order matches, the list is returned unchanged. -/
theorem closeOrderList_none (l : List PaperOrder) (oid : String) (e : ℚ)
    (h : (closeOrderList l oid e).2 = none) :
    (closeOrderList l oid e).1 = l := by
  induction l with
  | nil => rfl
  | cons o rest ih =>
    by_cases hid : o.id = oid
    · by_cases hst : o.status = OrderStatus.OPEN
      · simp [closeOrderList, hid, hst] at h
      · simp [closeOrderList, hid, hst]
    · simp only [closeOrderList, if_neg hid] at h ⊢
      rw [ih h]

/-- When an order is reported closed, it was an OPEN member of the list
with the requested id, and its closed version is in the result. -/
theorem closeOrderList_some (l : List PaperOrder) (oid : String) (e : ℚ)
    (o : PaperOrder) (h : (closeOrderList l oid e).2 = some o) :
    o ∈ l ∧ o.status = OrderStatus.OPEN ∧ o.id = oid ∧
      mkClosed o e ∈ (closeOrderList l oid e).1 := by
  induction l with
  | nil => simp [closeOrderList] at h
  | cons x rest ih =>
    by_cases hid : x.id = oid
    · by_cases hst : x.status = OrderStatus.OPEN
      · simp only [closeOrderList, if_pos hid, if_pos hst,
          Option.some.injEq] at h
        subst h
        refine ⟨List.mem_cons_self x rest, hst, hid, ?_⟩
        simp [closeOrderList, hid, hst]
      · simp [closeOrderList, hid, hst] at h
    · simp only [closeOrderList, if_neg hid] at h
      obtain ⟨hmem, hopen, hoid, hclosed⟩ := ih h
      refine ⟨List.mem_cons_of_mem x hmem, hopen, hoid, ?_⟩
      simp only [closeOrderList, if_neg hid]
      exact List.mem_cons_of_mem x hclosed

/-- Pointwise action of the close operation: every position of the list
is either untouched or transitions from OPEN to its closed version. -/
theorem closeOrderList_getElem (l : List PaperOrder) (oid : String) (e : ℚ)
    (i : Nat) :
    ((closeOrderList l oid e).1)[i]? = l[i]? ∨
      ∃ u, l[i]? = some u ∧ u.status = OrderStatus.OPEN ∧
        ((closeOrderList l oid e).1)[i]? = some (mkClosed u e) := by
  induction l generalizing i with
  | nil => left; rfl
  | cons x rest ih =>
    by_cases hid : x.id = oid
    · by_cases hst : x.status = OrderStatus.OPEN
      · cases i with
        | zero =>
          right
          exact ⟨x, by simp, hst, by simp [closeOrderList, hid, hst]⟩
        | succ j => left; simp [closeOrderList, hid, hst]
      · left; simp [closeOrderList, hid, hst]
    · cases i with
      | zero => left; simp [closeOrderList, hid]
      | succ j =>
        rcases ih j with h | ⟨u, hu, hopen, hres⟩
        · left; simpa [closeOrderList, hid] using h
        · right
          exact ⟨u, by simpa using hu, hopen,
            by simpa [closeOrderList, hid] using hres⟩

/-- A CLOSED order record never loses occurrences under the close
operation: only OPEN orders are rewritten. -/
theorem closeOrderList_count (l : List PaperOrder) (oid : String) (e : ℚ)
    (x : PaperOrder) (hx : x.status = OrderStatus.CLOSED) :
    l.count x ≤ ((closeOrderList l oid e).1).count x := by
  induction l with
  | nil => simp [closeOrderList]
  | cons o rest ih =>
    by_cases hid : o.id = oid
    · by_cases hst : o.status = OrderStatus.OPEN
      · have hne : x ≠ o := by
          intro hxo
          rw [hxo, hst] at hx
          exact OrderStatus.noConfusion hx
        have hbeq : (x == o) = false := by
          simp [hne]
        simp [closeOrderList, hid, hst, List.count_cons, hbeq]
        rw [if_neg (fun h2 => hne h2.symm)]
        exact Nat.zero_le _
      · simp [closeOrderList, hid, hst]
    · simp only [closeOrderList, if_neg hid]
      rw [List.count_cons, List.count_cons]
      exact Nat.add_le_add_right ih _

/-- Every element of the closed list is an original element or the
closed version of an original OPEN element. -/
theorem closeOrderList_mem (l : List PaperOrder) (oid : String) (e : ℚ)
    (x : PaperOrder) (h : x ∈ (closeOrderList l oid e).1) :
    x ∈ l ∨ ∃ u, u ∈ l ∧ u.status = OrderStatus.OPEN ∧ x = mkClosed u e := by
  induction l with
  | nil => simp [closeOrderList] at h
  | cons o rest ih =>
    by_cases hid : o.id = oid
    · by_cases hst : o.status = OrderStatus.OPEN
      · simp only [closeOrderList, if_pos hid, if_pos hst,
          List.mem_cons] at h
        rcases h with h | h
        · exact Or.inr ⟨o, List.mem_cons_self o rest, hst, h⟩
        · exact Or.inl (List.mem_cons_of_mem o h)
      · simp only [closeOrderList, if_pos hid, if_neg hst] at h
        exact Or.inl h
    · simp only [closeOrderList, if_neg hid, List.mem_cons] at h
      rcases h with h | h
      · exact Or.inl (h ▸ List.mem_cons_self o rest)
      · rcases ih h with h2 | ⟨u, hu, hopen, hx⟩
        · exact Or.inl (List.mem_cons_of_mem o h2)
        · exact Or.inr ⟨u, List.mem_cons_of_mem o hu, hopen, hx⟩

/-- Sums over the list after a successful close: total amounts are
preserved, closed returns grow by `shares * exitPrice` of the closed
order, closed amounts grow by its amount. -/
theorem closeOrderList_sums (l : List PaperOrder) (oid : String) (e : ℚ)
    (o : PaperOrder) (h : (closeOrderList l oid e).2 = some o) :
    sumAmount (closeOrderList l oid e).1 = sumAmount l ∧
      sumClosedReturn (closeOrderList l oid e).1 =
        sumClosedReturn l + o.shares * e ∧
      sumClosedAmount (closeOrderList l oid e).1 =
        sumClosedAmount l + o.amount := by
  induction l with
  | nil => simp [closeOrderList] at h
  | cons x rest ih =>
    by_cases hid : x.id = oid
    · by_cases hst : x.status = OrderStatus.OPEN
      · simp only [closeOrderList, if_pos hid, if_pos hst,
          Option.some.injEq] at h
        subst h
        refine ⟨?_, ?_, ?_⟩
        · simp [closeOrderList, hid, hst, sumAmount, mkClosed]
        · simp [closeOrderList, hid, hst, sumClosedReturn, mkClosed]
          ring
        · simp [closeOrderList, hid, hst, sumClosedAmount, mkClosed]
          ring
      · simp [closeOrderList, hid, hst] at h
    · simp only [closeOrderList, if_neg hid] at h
      obtain ⟨h1, h2, h3⟩ := ih h
      refine ⟨?_, ?_, ?_⟩
      · simp only [closeOrderList, if_neg hid, sumAmount, List.map_cons,
          List.sum_cons] at h1 ⊢
        rw [h1]
      · simp only [closeOrderList, if_neg hid, sumClosedReturn,
          List.map_cons, List.sum_cons] at h2 ⊢
        rw [h2]; ring
      · simp only [closeOrderList, if_neg hid, sumClosedAmount,
          List.map_cons, List.sum_cons] at h3 ⊢
        rw [h3]; ring

/-- Unfolding lemma: total amount over a cons cell. -/
theorem sumAmount_cons (o : PaperOrder) (l : List PaperOrder) :
    sumAmount (o :: l) = o.amount + sumAmount l := by
  simp [sumAmount]

/-- Unfolding lemma: open amount over a cons cell. -/
theorem sumOpenAmount_cons (o : PaperOrder) (l : List PaperOrder) :
    sumOpenAmount (o :: l) =
      (if o.status = OrderStatus.OPEN then o.amount else 0) +
        sumOpenAmount l := by
  simp [sumOpenAmount]

/-- Unfolding lemma: closed amount over a cons cell. -/
theorem sumClosedAmount_cons (o : PaperOrder) (l : List PaperOrder) :
    sumClosedAmount (o :: l) =
      (if o.status = OrderStatus.CLOSED then o.amount else 0) +
        sumClosedAmount l := by
  simp [sumClosedAmount]

/-- Unfolding lemma: closed return over a cons cell. -/
theorem sumClosedReturn_cons (o : PaperOrder) (l : List PaperOrder) :
    sumClosedReturn (o :: l) =
      (if o.status = OrderStatus.CLOSED then o.shares * o.exitPrice.getD 0
        else 0) + sumClosedReturn l := by
  simp [sumClosedReturn]

/-- With no CANCELLED orders, amounts split into open plus closed. -/
theorem sumAmount_split (l : List PaperOrder)
    (h : ∀ o ∈ l, o.status ≠ OrderStatus.CANCELLED) :
    sumAmount l = sumOpenAmount l + sumClosedAmount l := by
  induction l with
  | nil => simp [sumAmount, sumOpenAmount, sumClosedAmount]
  | cons o rest ih =>
    have ho := h o (List.mem_cons_self o rest)
    have hr : ∀ x ∈ rest, x.status ≠ OrderStatus.CANCELLED :=
      fun x hx => h x (List.mem_cons_of_mem o hx)
    rw [sumAmount_cons, sumOpenAmount_cons, sumClosedAmount_cons, ih hr]
    cases hs : o.status with
    | OPEN => simp [hs]; ring
    | CLOSED => simp [hs]; ring
    | CANCELLED => exact absurd hs ho

/-- The accounting invariant holds after a reset. -/
theorem inv_reset (b : ℚ) : Inv (resetState b) := by
  refine ⟨?_, ?_, ?_⟩
  · simp [resetState, sumAmount, sumClosedReturn]
  · simp [resetState, DEFAULT_PROFILE, sumClosedReturn, sumClosedAmount]
  · intro o ho
    simp [resetState] at ho

/-- The accounting invariant is preserved by every store operation. -/
theorem inv_applyOp (s : PaperState) (op : Op) (h : Inv s) :
    Inv (applyOp s op) := by
  obtain ⟨h1, h2, h3⟩ := h
  cases op with
  | add req newId now =>
    simp only [applyOp, addOrder]
    by_cases hb : s.profile.currentBalance < req.amount
    · rw [if_pos hb]
      exact ⟨h1, h2, h3⟩
    · rw [if_neg hb]
      refine ⟨?_, ?_, ?_⟩
      · simp only [sumAmount_cons, sumClosedReturn_cons]
        simp
        rw [h1]; ring
      · simp only [sumClosedReturn_cons, sumClosedAmount_cons]
        simp
        rw [h2]
      · intro o ho
        simp only [List.mem_cons] at ho
        rcases ho with ho | ho
        · subst ho
          simp
        · exact h3 o ho
  | close orderId exitPrice =>
    simp only [applyOp]
    rcases hcl : closeOrderList s.orders orderId exitPrice with ⟨l2, r⟩
    cases r with
    | none =>
      simp only [closeOrder, hcl]
      exact ⟨h1, h2, h3⟩
    | some o =>
      have hsums := closeOrderList_sums s.orders orderId exitPrice o
        (by rw [hcl])
      have hsome := closeOrderList_some s.orders orderId exitPrice o
        (by rw [hcl])
      rw [hcl] at hsums hsome
      obtain ⟨hs1, hs2, hs3⟩ := hsums
      simp only [closeOrder, hcl]
      refine ⟨?_, ?_, ?_⟩
      · simp only
        rw [hs1, hs2, h1]; ring
      · simp only
        rw [hs2, hs3, h2]; ring
      · intro x hx
        have hx2 : x ∈ (closeOrderList s.orders orderId exitPrice).1 := by
          rw [hcl]; exact hx
        rcases closeOrderList_mem s.orders orderId exitPrice x hx2 with
          hmem | ⟨u, _, _, hxu⟩
        · exact h3 x hmem
        · subst hxu
          simp [mkClosed]

/-- The accounting invariant is preserved by any operation sequence. -/
theorem inv_applyOps (s : PaperState) (ops : List Op) (h : Inv s) :
    Inv (applyOps s ops) := by
  induction ops generalizing s with
  | nil => exact h
  | cons op rest ih => exact ih (applyOp s op) (inv_applyOp s op h)

/-- A single store operation never loses occurrences of a CLOSED order
record. -/
theorem count_le_applyOp (s : PaperState) (op : Op) (x : PaperOrder)
    (hx : x.status = OrderStatus.CLOSED) :
    s.orders.count x ≤ (applyOp s op).orders.count x := by
  cases op with
  | add req newId now =>
    simp only [applyOp, addOrder]
    by_cases hb : s.profile.currentBalance < req.amount
    · rw [if_pos hb]
    · rw [if_neg hb]
      simp only [List.count_cons]
      exact Nat.le_add_right _ _
  | close oid e =>
    simp only [applyOp]
    rcases hcl : closeOrderList s.orders oid e with ⟨l2, r⟩
    cases r with
    | none => simp only [closeOrder, hcl]; exact Nat.le_refl _
    | some o2 =>
      simp only [closeOrder, hcl]
      have hc := closeOrderList_count s.orders oid e x hx
      rw [hcl] at hc
      exact hc

/-- C9.  Accounting invariant of the paper store: from any reset state,
after any sequence of `addOrder` / `closeOrder` operations, the current
balance equals the initial balance minus every amount ever spent on an
order plus `shares * exitPrice` of every CLOSED order; equivalently, it
equals the initial balance plus the accumulated `totalPnL` minus the
amounts locked in OPEN orders. -/
theorem c9_accounting (b : ℚ) (ops : List Op) :
    (applyOps (resetState b) ops).profile.currentBalance =
        (applyOps (resetState b) ops).profile.initialBalance -
          sumAmount (applyOps (resetState b) ops).orders +
          sumClosedReturn (applyOps (resetState b) ops).orders ∧
      (applyOps (resetState b) ops).profile.currentBalance =
        (applyOps (resetState b) ops).profile.initialBalance +
          (applyOps (resetState b) ops).profile.totalPnL -
          sumOpenAmount (applyOps (resetState b) ops).orders := by
  obtain ⟨h1, h2, h3⟩ := inv_applyOps (resetState b) ops (inv_reset b)
  refine ⟨h1, ?_⟩
  rw [h1, h2, sumAmount_split _ h3]
  ring

/-- C3.  A CLOSED position is terminal and immutable: its exact record
(with its pnl fixed at close time) survives every further sequence of
store operations, and a `closeOrder` call acts pointwise on the orders
list, either leaving an entry untouched or moving an OPEN entry to its
CLOSED version — the only status transition ever taken. -/
theorem c3_closed_terminal (s : PaperState) (o : PaperOrder)
    (h : o.status = OrderStatus.CLOSED) :
    (∀ ops : List Op,
        s.orders.count o ≤ (applyOps s ops).orders.count o) ∧
      (∀ (oid : String) (e : ℚ) (i : Nat),
        ((closeOrder s oid e).orders)[i]? = s.orders[i]? ∨
          ∃ u, s.orders[i]? = some u ∧ u.status = OrderStatus.OPEN ∧
            ((closeOrder s oid e).orders)[i]? = some (mkClosed u e)) := by
  constructor
  · intro ops
    induction ops generalizing s with
    | nil => exact Nat.le_refl _
    | cons op rest ih =>
      exact Nat.le_trans (count_le_applyOp s op o h) (ih (applyOp s op))
  · intro oid e i
    rcases hcl : closeOrderList s.orders oid e with ⟨l2, r⟩
    have hpt := closeOrderList_getElem s.orders oid e i
    rw [hcl] at hpt
    cases r with
    | none =>
      left
      have hnone : (closeOrderList s.orders oid e).1 = s.orders :=
        closeOrderList_none s.orders oid e (by rw [hcl])
      simp only [closeOrder, hcl]
    | some o2 =>
      simp only [closeOrder, hcl]
      simpa using hpt

/-- Witness for C3 at a concrete closed order: the record created by
opening `y1` and closing it at price 2 persists under a further close
operation. -/
theorem c3_witness :
    (mkClosed yOrder 2).status = OrderStatus.CLOSED ∧
      sC.orders.count (mkClosed yOrder 2) ≤
        (applyOps sC [Op.close "q" 1]).orders.count (mkClosed yOrder 2) :=
  ⟨rfl, (c3_closed_terminal sC (mkClosed yOrder 2) rfl).1 [Op.close "q" 1]⟩

/-- C1, counterexample.  A NO position opened at entry price 1 with 10
shares for 10 units and closed at exit price 2 gets pnl
`shares * exitPrice - amount = 10` recorded by the store, while the
claimed formula `(exitPrice - entryPrice) * size * directionSign` with
direction sign −1 for NO yields −10: the store applies no direction
sign. -/
theorem c1_counterexample :
    ((closeOrder sNO "n1" 2).orders.map (fun o => o.pnl)) = [some 10] ∧
      specRealizedPnl Outcome.NO 1 2 10 = -10 ∧
      some (10 : ℚ) ≠ some (-10 : ℚ) := by
  refine ⟨?_, ?_, ?_⟩
  · norm_num [sNO, addOrder, resetState, DEFAULT_PROFILE, mkReq, reqNO,
      closeOrder, closeOrderList, mkClosed]
  · norm_num [specRealizedPnl]
  · norm_num

/-- C1, amended.  On every successful close, the store records
`pnl = shares * exitPrice - amount` on the closed order, with no
direction sign for NO positions; whenever `amount = shares *
entryPrice` (an order opened at its entry cost, as in the claim's YES
case) this equals `(exitPrice - entryPrice) * shares`, the claimed
formula with direction sign +1. -/
theorem c1_pnl_formula (s : PaperState) (oid : String) (e : ℚ)
    (o : PaperOrder) (h : (closeOrderList s.orders oid e).2 = some o) :
    (closeOrder s oid e).orders = (closeOrderList s.orders oid e).1 ∧
      mkClosed o e ∈ (closeOrder s oid e).orders ∧
      (mkClosed o e).pnl = some (o.shares * e - o.amount) ∧
      (o.amount = o.shares * o.entryPrice →
        o.shares * e - o.amount = (e - o.entryPrice) * o.shares) := by
  have hsome := closeOrderList_some s.orders oid e o h
  rcases hcl : closeOrderList s.orders oid e with ⟨l2, r⟩
  rw [hcl] at h hsome
  simp only at h
  subst h
  simp only [closeOrder, hcl]
  refine ⟨by simp [hcl], by simpa using hsome.2.2.2, rfl, ?_⟩
  intro ha
  rw [ha]
  ring

/-- Witness for C1's amended theorem: closing the concrete open YES
order `y1` (amount 10 = 10 shares at entry price 1) at exit price 2. -/
theorem c1_witness :
    (closeOrderList sYES.orders "y1" 2).2 = some yOrder ∧
      (mkClosed yOrder 2).pnl = some (yOrder.shares * 2 - yOrder.amount) ∧
      yOrder.shares * 2 - yOrder.amount =
        (2 - yOrder.entryPrice) * yOrder.shares := by
  have hyp : (closeOrderList sYES.orders "y1" 2).2 = some yOrder := by
    norm_num [sYES, addOrder, resetState, DEFAULT_PROFILE, mkReq, reqYES,
      closeOrderList, yOrder]
  have hres := c1_pnl_formula sYES "y1" 2 yOrder hyp
  exact ⟨hyp, hres.2.2.1, hres.2.2.2 (by norm_num [yOrder])⟩

/-- C6.  Entry gating of the signal engine: whenever `|z|` is below the
entry threshold no ENTER signal is emitted; ENTER_NO is emitted only
with no open position and `z >= entryThreshold`; ENTER_YES only with no
open position and `z <= -entryThreshold`. -/
theorem c6_entry_gating (cfg : EngineConfig) (price : ℚ) (ws : WindowStats)
    (openZ : Option ℚ) :
    (|zscore price ws| < cfg.entryThreshold →
        isEnter (evaluate cfg price (some ws) openZ) = false) ∧
      (evaluate cfg price (some ws) openZ = SignalKind.ENTER_NO →
        openZ = none ∧ cfg.entryThreshold ≤ zscore price ws) ∧
      (evaluate cfg price (some ws) openZ = SignalKind.ENTER_YES →
        openZ = none ∧ zscore price ws ≤ -cfg.entryThreshold) := by
  cases openZ with
  | none =>
    by_cases h1 : cfg.entryThreshold ≤ zscore price ws
    · refine ⟨?_, fun _ => ⟨rfl, h1⟩, ?_⟩
      · intro habs
        exfalso
        rw [abs_lt] at habs
        linarith [habs.2]
      · intro he
        simp [evaluate, h1] at he
    · by_cases h2 : zscore price ws ≤ -cfg.entryThreshold
      · refine ⟨?_, ?_, fun _ => ⟨rfl, h2⟩⟩
        · intro habs
          exfalso
          rw [abs_lt] at habs
          linarith [habs.1]
        · intro he
          simp [evaluate, h1, h2] at he
      · refine ⟨fun _ => ?_, fun he => ?_, fun he => ?_⟩
        · simp [evaluate, h1, h2, isEnter]
        · simp [evaluate, h1, h2] at he
        · simp [evaluate, h1, h2] at he
  | some ez =>
    have hcases : evaluate cfg price (some ws) (some ez) = SignalKind.EXIT ∨
        evaluate cfg price (some ws) (some ez) = SignalKind.NONE := by
      simp only [evaluate]
      by_cases h1 : |zscore price ws| ≤ cfg.exitThreshold
      · left
        simp [h1]
      · by_cases h2 : zscore price ws * ez < 0 ∧
            cfg.entryThreshold ≤ |zscore price ws|
        · left
          simp [h1, h2]
        · right
          simp [h1, h2]
    rcases hcases with hc | hc <;>
      exact ⟨fun _ => by simp [hc, isEnter],
        fun he => absurd (hc.symm.trans he) (by simp),
        fun he => absurd (hc.symm.trans he) (by simp)⟩

/-- Witness for C6: with mean 100 and stddev 2, price 101 gives
`z = 1/2` (inside the threshold, no entry emitted), while price 106
gives `z = 3 >= 5/2`, so with no open position ENTER_NO is emitted. -/
theorem c6_witness :
    |zscore 101 ⟨100, 2, 30⟩| < defaultConfig.entryThreshold ∧
      isEnter (evaluate defaultConfig 101 (some ⟨100, 2, 30⟩) none) =
        false ∧
      evaluate defaultConfig 106 (some ⟨100, 2, 30⟩) none =
        SignalKind.ENTER_NO ∧
      defaultConfig.entryThreshold ≤ zscore 106 ⟨100, 2, 30⟩ := by
  have h1 : |zscore 101 ⟨100, 2, 30⟩| < defaultConfig.entryThreshold := by
    rw [abs_lt]
    constructor <;> norm_num [zscore, defaultConfig]
  have h2 : evaluate defaultConfig 106 (some ⟨100, 2, 30⟩) none =
      SignalKind.ENTER_NO := by
    norm_num [evaluate, zscore, defaultConfig]
  exact ⟨h1, (c6_entry_gating defaultConfig 101 ⟨100, 2, 30⟩ none).1 h1,
    h2, ((c6_entry_gating defaultConfig 106 ⟨100, 2, 30⟩ none).2.1 h2).2⟩

/-- C8.  With fewer samples than the configured minimum (in particular a
single sample, where the sample standard deviation is undefined),
`stats` returns the insufficient-data result instead of any numeric
value, and the downstream evaluation emits NONE. -/
theorem c8_insufficient_data (sqrtFn : ℚ → ℚ) (cfg : EngineConfig)
    (samples : List ℚ) (price : ℚ) (openZ : Option ℚ)
    (h : samples.length < cfg.minSamples) :
    stats sqrtFn cfg samples = none ∧
      evaluate cfg price (stats sqrtFn cfg samples) openZ =
        SignalKind.NONE := by
  have hs : stats sqrtFn cfg samples = none := by
    simp [stats, h]
  refine ⟨hs, ?_⟩
  rw [hs]
  rfl

/-- Witness for C8: a one-sample window is below the default minimum of
two samples and yields NONE. -/
theorem c8_witness :
    ([(100 : ℚ)].length < defaultConfig.minSamples) ∧
      stats id defaultConfig [100] = none ∧
      evaluate defaultConfig 5 (stats id defaultConfig [100]) none =
        SignalKind.NONE := by
  have h : ([(100 : ℚ)].length < defaultConfig.minSamples) := by
    norm_num [defaultConfig]
  exact ⟨h, (c8_insufficient_data id defaultConfig [100] 5 none h).1,
    (c8_insufficient_data id defaultConfig [100] 5 none h).2⟩

/-- C7, counterexample.  At the exact boundary `now = marketExpiry -
minCloseBuffer` the forced-close rule `marketExpiry - now <
minCloseBuffer` does not fire: the position `pBoundary` (expiry 120,
buffer 120, now 0) stays OPEN after the tick although
`now >= marketExpiry - minCloseBuffer` holds, so the claim's inclusive
bound fails at the boundary point. -/
theorem c7_counterexample :
    forceTick defaultConfig 0 [pBoundary] = [pBoundary] ∧
      pBoundary.status = PosStatus.OPEN ∧
      (0 : ℚ) ≥ pBoundary.marketExpiry - defaultConfig.minCloseBuffer := by
  refine ⟨?_, rfl, ?_⟩
  · norm_num [forceTick, pBoundary, defaultConfig]
  · norm_num [pBoundary, defaultConfig]

/-- C7, amended.  After a forced-close tick, every position still OPEN
satisfies the strict conditions `marketExpiry - now >= minCloseBuffer`
and `now - openedAt <= maxHoldDuration`: no position remains OPEN once
`now` is strictly past `marketExpiry - minCloseBuffer` or the hold
duration strictly exceeds `maxHoldDuration`, independent of any
Z-score. -/
theorem c7_forced_close (cfg : EngineConfig) (now : ℚ)
    (ps : List EnginePosition) (p : EnginePosition)
    (hmem : p ∈ forceTick cfg now ps)
    (hopen : p.status = PosStatus.OPEN) :
    cfg.minCloseBuffer ≤ p.marketExpiry - now ∧
      now - p.openedAt ≤ cfg.maxHoldDuration := by
  simp only [forceTick, List.mem_map] at hmem
  obtain ⟨q, hq, hfq⟩ := hmem
  by_cases hc : q.status = PosStatus.OPEN ∧
      (q.marketExpiry - now < cfg.minCloseBuffer ∨
        cfg.maxHoldDuration < now - q.openedAt)
  · rw [if_pos hc] at hfq
    exfalso
    rw [← hfq] at hopen
    exact PosStatus.noConfusion hopen
  · rw [if_neg hc] at hfq
    subst hfq
    push_neg at hc
    obtain ⟨ha, hb⟩ := hc hopen
    constructor <;> linarith

/-- Witness for C7's amended theorem: the fresh position stays OPEN at
`now = 10` and indeed satisfies both strict bounds. -/
theorem c7_witness :
    pFresh ∈ forceTick defaultConfig 10 [pFresh] ∧
      pFresh.status = PosStatus.OPEN ∧
      defaultConfig.minCloseBuffer ≤ pFresh.marketExpiry - 10 ∧
      10 - pFresh.openedAt ≤ defaultConfig.maxHoldDuration := by
  have hmem : pFresh ∈ forceTick defaultConfig 10 [pFresh] := by
    norm_num [forceTick, pFresh, defaultConfig]
  have hres := c7_forced_close defaultConfig 10 [pFresh] pFresh hmem rfl
  exact ⟨hmem, rfl, hres.1, hres.2⟩

/-- Inserting into a list permutes consing onto it. -/
theorem insertDesc_perm (m : ScoredMarket) (l : List ScoredMarket) :
    List.Perm (insertDesc m l) (m :: l) := by
  induction l with
  | nil => exact List.Perm.refl _
  | cons x xs ih =>
    by_cases h : scoreOf x < scoreOf m
    · simp only [insertDesc, if_pos h]
      exact List.Perm.refl _
    · simp only [insertDesc, if_neg h]
      exact List.Perm.trans (List.Perm.cons x ih) (List.Perm.swap m x xs)

/-- The filter's sort is a permutation of its input. -/
theorem sortDesc_perm (l : List ScoredMarket) :
    List.Perm (sortDesc l) l := by
  induction l with
  | nil => exact List.Perm.refl _
  | cons x xs ih =>
    exact List.Perm.trans (insertDesc_perm x (sortDesc xs))
      (List.Perm.cons x ih)

/-- Insertion preserves descending order. -/
theorem insertDesc_sorted (m : ScoredMarket) (l : List ScoredMarket)
    (h : SortedDesc l) : SortedDesc (insertDesc m l) := by
  induction l with
  | nil =>
    simp [insertDesc, SortedDesc]
  | cons x xs ih =>
    rw [SortedDesc, List.pairwise_cons] at h
    obtain ⟨hxall, hxs⟩ := h
    by_cases hx : scoreOf x < scoreOf m
    · simp only [insertDesc, if_pos hx, SortedDesc, List.pairwise_cons]
      refine ⟨?_, ?_⟩
      · intro b hb
        rcases List.mem_cons.mp hb with hb | hb
        · rw [hb]
          exact le_of_lt hx
        · exact le_trans (hxall b hb) (le_of_lt hx)
      · exact ⟨hxall, hxs⟩
    · simp only [insertDesc, if_neg hx, SortedDesc, List.pairwise_cons]
      refine ⟨?_, ih hxs⟩
      intro b hb
      rcases List.mem_cons.mp ((insertDesc_perm m xs).mem_iff.mp hb) with
        hb | hb
      · rw [hb]
        exact le_of_not_lt hx
      · exact hxall b hb

/-- The filter's sort produces a descending list. -/
theorem sortDesc_sorted (l : List ScoredMarket) :
    SortedDesc (sortDesc l) := by
  induction l with
  | nil => simp [sortDesc, SortedDesc]
  | cons x xs ih => exact insertDesc_sorted x (sortDesc xs) ih

/-- A filter returning no survivors when every element fails. -/
theorem filter_eq_nil_of_forall (p : ScoredMarket → Bool)
    (l : List ScoredMarket) (h : ∀ b ∈ l, p b = false) :
    l.filter p = [] := by
  induction l with
  | nil => rfl
  | cons x xs ih =>
    rw [List.filter_cons]
    rw [h x (List.mem_cons_self x xs)]
    exact ih (fun b hb => h b (List.mem_cons_of_mem x hb))

/-- Any taken initial segment is a prefix. -/
theorem pref_take (n : Nat) (l : List ScoredMarket) : IsPref (l.take n) l :=
  ⟨l.drop n, List.take_append_drop n l⟩

/-- Initial segments compose. -/
theorem pref_trans (a b c : List ScoredMarket) (h1 : IsPref a b)
    (h2 : IsPref b c) : IsPref a c := by
  obtain ⟨t1, ht1⟩ := h1
  obtain ⟨t2, ht2⟩ := h2
  exact ⟨t1 ++ t2, by rw [← List.append_assoc, ht1, ht2]⟩

/-- On a descending list, score-threshold filtering keeps an initial
segment: every survivor precedes every discarded element. -/
theorem filter_pref_of_sorted (t : ℚ) (l : List ScoredMarket)
    (h : SortedDesc l) :
    IsPref (l.filter (fun m => t ≤ scoreOf m)) l := by
  induction l with
  | nil => exact ⟨[], rfl⟩
  | cons x xs ih =>
    rw [SortedDesc, List.pairwise_cons] at h
    obtain ⟨hxall, hxs⟩ := h
    by_cases hx : t ≤ scoreOf x
    · obtain ⟨tl, htl⟩ := ih hxs
      refine ⟨tl, ?_⟩
      have hfc : (x :: xs).filter (fun m => t ≤ scoreOf m) =
          x :: xs.filter (fun m => t ≤ scoreOf m) := by
        simp [List.filter_cons, hx]
      rw [hfc, List.cons_append, htl]
    · have hall : (x :: xs).filter (fun m => t ≤ scoreOf m) = [] := by
        apply filter_eq_nil_of_forall
        intro b hb
        rcases List.mem_cons.mp hb with hb | hb
        · rw [hb]
          exact decide_eq_false hx
        · apply decide_eq_false
          intro hcon
          exact hx (le_trans hcon (hxall b hb))
      rw [hall]
      exact ⟨x :: xs, rfl⟩

/-- The threshold loop always returns a bounded initial segment of the
sorted list, over every branch including the last-resort and fallback
returns. -/
theorem filterGo_spec (ts : List ℚ) (sorted : List ScoredMarket)
    (tMin tMax lrMin fbTop : Nat) (lastT : ℚ)
    (hs : SortedDesc sorted) (hfb : fbTop ≤ tMax) :
    IsPref (filterGo sorted tMin tMax lrMin fbTop lastT ts) sorted ∧
      (filterGo sorted tMin tMax lrMin fbTop lastT ts).length ≤ tMax := by
  induction ts with
  | nil =>
    refine ⟨pref_take _ _, ?_⟩
    rw [filterGo, List.length_take]
    omega
  | cons t rest ih =>
    rw [filterGo]
    by_cases h1 : tMin ≤ (sorted.filter (fun m => t ≤ scoreOf m)).length ∧
        (sorted.filter (fun m => t ≤ scoreOf m)).length ≤ tMax
    · rw [if_pos h1]
      exact ⟨filter_pref_of_sorted t sorted hs, h1.2⟩
    · rw [if_neg h1]
      by_cases h2 : tMax < (sorted.filter (fun m => t ≤ scoreOf m)).length
      · rw [if_pos h2]
        refine ⟨pref_trans _ _ _ (pref_take tMax _)
          (filter_pref_of_sorted t sorted hs), ?_⟩
        rw [List.length_take]
        omega
      · rw [if_neg h2]
        by_cases h3 : (sorted.filter (fun m => t ≤ scoreOf m)).length <
            tMin ∧ lastT < t
        · rw [if_pos h3]
          exact ih
        · rw [if_neg h3]
          by_cases h4 : lrMin ≤ (sorted.filter
              (fun m => t ≤ scoreOf m)).length
          · rw [if_pos h4]
            exact ⟨filter_pref_of_sorted t sorted hs, Nat.le_of_not_lt h2⟩
          · rw [if_neg h4]
            exact ih

/-- C10.  Both versions of `filterSnipableMarkets`, called with their
declared default target bounds, return an initial segment of the input
arranged in descending sniping score (a descending-sorted permutation
of the input), and the result never exceeds `targetMax` elements —
through the threshold loop, the cap, the last-resort return and the
absolute fallback alike. -/
theorem c10_filter_bounded (markets : List ScoredMarket) :
    (IsPref (filterSnipableMarkets markets 40 200) (sortDesc markets) ∧
        (filterSnipableMarkets markets 40 200).length ≤ 200) ∧
      (IsPref (filterSnipableMarketsV1 markets 25 500) (sortDesc markets) ∧
        (filterSnipableMarketsV1 markets 25 500).length ≤ 500) ∧
      SortedDesc (sortDesc markets) ∧
      List.Perm (sortDesc markets) markets := by
  refine ⟨?_, ?_, sortDesc_sorted markets, sortDesc_perm markets⟩
  · exact filterGo_spec [60, 55, 50, 45, 40, 35, 30] (sortDesc markets)
      40 200 20 50 30 (sortDesc_sorted markets) (by omega)
  · exact filterGo_spec [50, 45, 40, 35, 30, 25, 20, 15, 10, 5]
      (sortDesc markets) 25 500 10 100 5 (sortDesc_sorted markets)
      (by omega)

end PolyGraalX
